import Mathlib

/-!
Verification of the schema-registry client library against its specification.

The definitions below are shallow embeddings of the C++ sources:
machine integers become Nat/Int (with explicit saturation or checked
division where the C++ semantics demand it), std::string becomes
String or List Char, time points become rationals, and the process-wide
random jitter source becomes an explicit rational parameter.

Where the repository ships two concatenated revisions of a file
(OAuthProvider.cpp, BackoffUtils.h), the revision matching the class
declarations in the header and the unit tests is embedded: the one with
OAuthToken fetch_token() returning a token, a shared_mutex, and a
Config::validate that checks retry_base_delay_ms against
retry_max_delay_ms.
-/

/-! ## BackoffUtils (src/src/rest/BackoffUtils.cpp) -/

/-- Embedding of isRetriable: true exactly for the six retriable HTTP codes. -/
def isRetriable (status_code : Int) : Bool :=
  status_code == 408 || status_code == 429 || status_code == 500 ||
    status_code == 502 || status_code == 503 || status_code == 504

/-- Value of std::numeric_limits of uint32_t, used by the overflow guard. -/
def UINT32_MAX : Nat := 4294967295

/-- Pre-jitter part of calculateExponentialBackoff: the saturated
value of min(initial_backoff_ms * 2 ^ retry_attempt, max_backoff).
For retry_attempt below 32 the C++ shift 1ULL << retry_attempt equals
2 ^ retry_attempt exactly, and the uint64 product cannot wrap. -/
def backoffPreJitter (initial_backoff_ms retry_attempt max_backoff : Nat) : Nat :=
  if 32 ≤ retry_attempt then max_backoff
  else if UINT32_MAX / initial_backoff_ms < 2 ^ retry_attempt then max_backoff
  else min (2 ^ retry_attempt * initial_backoff_ms) max_backoff

/-- Checked variant of the same computation: the overflow guard divides
by initial_backoff_ms whenever retry_attempt is below 32 (the disjunction
short-circuits), so that division is a division by zero when
initial_backoff_ms = 0; this embedding returns none in exactly that case. -/
def backoffPreJitterChecked (initial_backoff_ms retry_attempt max_backoff : Nat) :
    Option Nat :=
  if 32 ≤ retry_attempt then some max_backoff
  else if initial_backoff_ms = 0 then none
  else if UINT32_MAX / initial_backoff_ms < 2 ^ retry_attempt then some max_backoff
  else some (min (2 ^ retry_attempt * initial_backoff_ms) max_backoff)

/-- Embedding of static_cast from double to long: truncation toward zero. -/
def cLongCast (q : ℚ) : ℤ :=
  if 0 ≤ q then ⌊q⌋ else ⌈q⌉

/-- Embedding of calculateExponentialBackoff, with the uniformly sampled
jitter factor made an explicit parameter. -/
def calculateExponentialBackoff (initial_backoff_ms retry_attempt max_backoff : Nat)
    (jitter : ℚ) : ℤ :=
  cLongCast ((backoffPreJitter initial_backoff_ms retry_attempt max_backoff : ℚ) * jitter)

/-! ## OAuthToken (src/include/schemaregistry/rest/BackoffUtils.h, OAuthProvider.h part) -/

/-- Embedding of static_cast from double to int: truncation toward zero. -/
def cIntCast (q : ℚ) : ℤ :=
  if 0 ≤ q then ⌊q⌋ else ⌈q⌉

/-- OAuth token with expiry tracking; time points are rationals counting
seconds, so sub-second instants are representable. -/
structure OAuthToken where
  access_token : String
  expires_at : ℚ
  expires_in_seconds : ℤ

/-- Embedding of OAuthToken.is_valid. -/
def OAuthToken.is_valid (t : OAuthToken) : Bool :=
  !(t.access_token == "")

/-- Refresh buffer computed by is_expired: the double product
expires_in_seconds * (1 - threshold) truncated to int, in whole seconds. -/
def OAuthToken.refreshBuffer (t : OAuthToken) (threshold : ℚ) : ℤ :=
  cIntCast ((t.expires_in_seconds : ℚ) * (1 - threshold))

/-- Embedding of OAuthToken.is_expired, with the current time an explicit
parameter: an invalid token is expired, otherwise the token is expired
once expires_at minus the refresh buffer is strictly before now. -/
def OAuthToken.is_expired (t : OAuthToken) (now threshold : ℚ) : Bool :=
  if !t.is_valid then true
  else decide (t.expires_at - (t.refreshBuffer threshold : ℚ) < now)

/-- Formalisation of the claim wording: expired once
now ≥ expires_at - (1 - threshold) * expires_in_seconds (exact arithmetic),
or the access token is empty. -/
def expiredSpec (t : OAuthToken) (now threshold : ℚ) : Prop :=
  t.access_token = "" ∨
    t.expires_at - (1 - threshold) * (t.expires_in_seconds : ℚ) ≤ now

/-- Helper: the pre-jitter backoff never exceeds the configured maximum. -/
theorem backoffPreJitter_le (b a m : Nat) : backoffPreJitter b a m ≤ m := by
  unfold backoffPreJitter
  split_ifs <;> simp [min_le_right]

/-- C4: isRetriable returns true exactly for 408, 429, 500, 502, 503, 504,
and false for every other code, including 0, 200, 400, 404 and 501. -/
theorem c4_isRetriable_iff :
    (∀ code : ℤ, isRetriable code = true ↔
      (code = 408 ∨ code = 429 ∨ code = 500 ∨ code = 502 ∨ code = 503 ∨ code = 504)) ∧
    isRetriable 0 = false ∧ isRetriable 200 = false ∧ isRetriable 400 = false ∧
    isRetriable 404 = false ∧ isRetriable 501 = false := by
  refine ⟨fun code => ?_, rfl, rfl, rfl, rfl, rfl⟩
  simp only [isRetriable, Bool.or_eq_true, beq_iff_eq]
  tauto

/-- C3: for base at least 1 and jitter in the unit interval, the computed
backoff is nonnegative and bounded by max_backoff for every attempt number,
and whenever the attempt is at least 32 the pre-jitter value saturates
straight to max_backoff instead of wrapping. -/
theorem c3_backoff_bounded (base attempt maxB : Nat) (jitter : ℚ)
    (hb : 1 ≤ base) (hj0 : 0 ≤ jitter) (hj1 : jitter < 1) :
    0 ≤ calculateExponentialBackoff base attempt maxB jitter ∧
    calculateExponentialBackoff base attempt maxB jitter ≤ maxB ∧
    (32 ≤ attempt → backoffPreJitter base attempt maxB = maxB) := by
  have hpre : (backoffPreJitter base attempt maxB : ℚ) ≤ (maxB : ℚ) := by
    exact_mod_cast backoffPreJitter_le base attempt maxB
  have hprod0 : 0 ≤ (backoffPreJitter base attempt maxB : ℚ) * jitter :=
    mul_nonneg (by positivity) hj0
  have hcast : calculateExponentialBackoff base attempt maxB jitter =
      ⌊(backoffPreJitter base attempt maxB : ℚ) * jitter⌋ := by
    unfold calculateExponentialBackoff cLongCast
    rw [if_pos hprod0]
  refine ⟨?_, ?_, ?_⟩
  · rw [hcast]
    exact Int.floor_nonneg.mpr hprod0
  · rw [hcast]
    have hle : (backoffPreJitter base attempt maxB : ℚ) * jitter ≤ (maxB : ℚ) := by
      calc (backoffPreJitter base attempt maxB : ℚ) * jitter
          ≤ (backoffPreJitter base attempt maxB : ℚ) * 1 :=
            mul_le_mul_of_nonneg_left (le_of_lt hj1) (by positivity)
        _ = (backoffPreJitter base attempt maxB : ℚ) := mul_one _
        _ ≤ (maxB : ℚ) := hpre
    calc ⌊(backoffPreJitter base attempt maxB : ℚ) * jitter⌋
        ≤ ⌊(maxB : ℚ)⌋ := Int.floor_le_floor hle
      _ = (maxB : ℤ) := Int.floor_natCast maxB
  · intro h32
    unfold backoffPreJitter
    rw [if_pos h32]

/-- Witness for C3 at base 1000, attempt 100, max 20000, jitter one half. -/
theorem c3_backoff_bounded_witness :
    0 ≤ calculateExponentialBackoff 1000 100 20000 (1/2) ∧
    calculateExponentialBackoff 1000 100 20000 (1/2) ≤ 20000 ∧
    (32 ≤ 100 → backoffPreJitter 1000 100 20000 = 20000) :=
  c3_backoff_bounded 1000 100 20000 (1/2) (by decide) (by norm_num) (by norm_num)

/-- C10: for every attempt below 32 the overflow guard divides by
initial_backoff_ms, so the checked embedding is none (division by zero)
when initial_backoff_ms = 0; for initial_backoff_ms at least 1 the
computation is well defined for all attempt values and agrees with the
total embedding. -/
theorem c10_backoff_total_iff_base_pos (base attempt maxB : Nat) :
    (attempt < 32 → base = 0 →
      backoffPreJitterChecked base attempt maxB = none) ∧
    (1 ≤ base →
      backoffPreJitterChecked base attempt maxB =
        some (backoffPreJitter base attempt maxB)) := by
  constructor
  · intro h32 h0
    unfold backoffPreJitterChecked
    rw [if_neg (by omega), if_pos h0]
  · intro h1
    unfold backoffPreJitterChecked backoffPreJitter
    split_ifs with h h2 h3 <;> first | rfl | omega

/-- Witness for C10: base 0 at attempt 5 hits the division by zero;
base 1000 at attempt 2 is well defined. -/
theorem c10_backoff_total_iff_base_pos_witness :
    backoffPreJitterChecked 0 5 100 = none ∧
    backoffPreJitterChecked 1000 2 20000 = some 4000 := by
  constructor
  · exact (c10_backoff_total_iff_base_pos 0 5 100).1 (by decide) rfl
  · have h := (c10_backoff_total_iff_base_pos 1000 2 20000).2 (by decide)
    rw [h]
    decide

/-- C1 counterexample: a valid token with expires_at 1000 and lifetime 100,
at threshold 0 and now exactly 900 = expires_at - (1 - threshold)
* expires_in_seconds: the claim formula says expired, the code says not
expired (the code uses a strict comparison). -/
theorem c1_is_expired_counterexample :
    (OAuthToken.mk "tok" 1000 100).is_expired 900 0 = false ∧
    expiredSpec (OAuthToken.mk "tok" 1000 100) 900 0 := by
  constructor
  · have hb : (OAuthToken.mk "tok" 1000 100).refreshBuffer 0 = 100 := by
      unfold OAuthToken.refreshBuffer cIntCast
      norm_num
    unfold OAuthToken.is_expired OAuthToken.is_valid
    rw [hb]
    norm_num
    decide
  · unfold expiredSpec
    right
    norm_num

/-- C1 amended: for threshold in [0,1] and a nonnegative lifetime,
is_expired is true exactly when the access token is empty or now is
strictly later than expires_at minus the floor of
(1 - threshold) * expires_in_seconds; a token with nonempty access token
constructed with positive lifetime and expires_at = now + lifetime is not
expired at construction time; a token with empty access token is always
expired. -/
theorem c1_is_expired_amended (t : OAuthToken) (now threshold : ℚ) :
    (0 ≤ t.expires_in_seconds → threshold ≤ 1 →
      (t.is_expired now threshold = true ↔
        (t.access_token = "" ∨
          t.expires_at - (⌊(t.expires_in_seconds : ℚ) * (1 - threshold)⌋ : ℚ) < now))) ∧
    (t.access_token ≠ "" → 0 < t.expires_in_seconds → 0 ≤ threshold → threshold ≤ 1 →
      t.expires_at = now + (t.expires_in_seconds : ℚ) →
      t.is_expired now threshold = false) ∧
    (t.access_token = "" → t.is_expired now threshold = true) := by
  have hbuf : ∀ _h0 : 0 ≤ t.expires_in_seconds, ∀ _h1 : threshold ≤ 1,
      t.refreshBuffer threshold = ⌊(t.expires_in_seconds : ℚ) * (1 - threshold)⌋ := by
    intro h0 h1
    unfold OAuthToken.refreshBuffer cIntCast
    rw [if_pos]
    apply mul_nonneg
    · exact_mod_cast h0
    · linarith
  refine ⟨?_, ?_, ?_⟩
  · intro h0 h1
    unfold OAuthToken.is_expired OAuthToken.is_valid
    rw [hbuf h0 h1]
    by_cases he : t.access_token = ""
    · simp [he]
    · simp [he]
  · intro hne hpos h0 h1 hat
    unfold OAuthToken.is_expired OAuthToken.is_valid
    rw [hbuf (le_of_lt hpos) h1]
    have hfl : (⌊(t.expires_in_seconds : ℚ) * (1 - threshold)⌋ : ℚ) ≤
        (t.expires_in_seconds : ℚ) := by
      calc (⌊(t.expires_in_seconds : ℚ) * (1 - threshold)⌋ : ℚ)
          ≤ (t.expires_in_seconds : ℚ) * (1 - threshold) := Int.floor_le _
        _ ≤ (t.expires_in_seconds : ℚ) * 1 := by
            apply mul_le_mul_of_nonneg_left (by linarith)
            exact_mod_cast le_of_lt hpos
        _ = (t.expires_in_seconds : ℚ) := mul_one _
    have hnotlt : ¬ (t.expires_at - (⌊(t.expires_in_seconds : ℚ) * (1 - threshold)⌋ : ℚ)
        < now) := by
      rw [hat]
      push_neg
      linarith
    simp [hne, hnotlt]
  · intro he
    unfold OAuthToken.is_expired OAuthToken.is_valid
    simp [he]

/-- Witness for C1 amended at concrete tokens. -/
theorem c1_is_expired_amended_witness :
    ((OAuthToken.mk "tok" 900 100).is_expired 800 (1/2) = false) ∧
    ((OAuthToken.mk "" 1000 100).is_expired 950 (1/2) = true) :=
  ⟨(c1_is_expired_amended (OAuthToken.mk "tok" 900 100) 800 (1/2)).2.1
      (by decide) (by decide) (by norm_num) (by norm_num) (by norm_num),
   (c1_is_expired_amended (OAuthToken.mk "" 1000 100) 950 (1/2)).2.2 rfl⟩

/-! ## OAuthClientProvider::Config::validate (src/src/rest/OAuthProvider.cpp) -/

/-- Configuration for the OAuth client-credentials flow; the double
threshold becomes a rational. -/
structure Config where
  client_id : String
  client_secret : String
  scope : String
  token_endpoint_url : String
  logical_cluster : String
  identity_pool_id : String
  max_retries : ℤ
  retry_base_delay_ms : ℤ
  retry_max_delay_ms : ℤ
  token_refresh_threshold : ℚ
  http_timeout_seconds : ℤ

/-- Embedding of Config::validate: the first failing check raises
invalid_argument with its message, modelled as the error value. -/
def Config.validate (c : Config) : Except String Unit :=
  if c.client_id = "" then .error "client_id is required"
  else if c.client_secret = "" then .error "client_secret is required"
  else if c.scope = "" then .error "scope is required"
  else if c.token_endpoint_url = "" then .error "token_endpoint_url is required"
  else if c.max_retries < 0 then .error "max_retries must be non-negative"
  else if c.retry_base_delay_ms ≤ 0 then .error "retry_base_delay_ms must be positive"
  else if c.retry_max_delay_ms ≤ 0 then .error "retry_max_delay_ms must be positive"
  else if c.retry_max_delay_ms < c.retry_base_delay_ms then
    .error "retry_base_delay_ms must not exceed retry_max_delay_ms"
  else if c.token_refresh_threshold < 0 ∨ 1 < c.token_refresh_threshold then
    .error "token_refresh_threshold must be between 0.0 and 1.0"
  else if c.http_timeout_seconds ≤ 0 then .error "http_timeout_seconds must be positive"
  else .ok ()

/-- C6: when every other field is valid, validate fails with the
configuration error naming the base/max delay relationship exactly when
retry_base_delay_ms exceeds retry_max_delay_ms, and succeeds exactly when
retry_base_delay_ms is at most retry_max_delay_ms. -/
theorem c6_validate_base_le_max (c : Config)
    (h1 : c.client_id ≠ "") (h2 : c.client_secret ≠ "") (h3 : c.scope ≠ "")
    (h4 : c.token_endpoint_url ≠ "") (h5 : 0 ≤ c.max_retries)
    (h6 : 0 < c.retry_base_delay_ms) (h7 : 0 < c.retry_max_delay_ms)
    (h8 : 0 ≤ c.token_refresh_threshold) (h9 : c.token_refresh_threshold ≤ 1)
    (h10 : 0 < c.http_timeout_seconds) :
    (c.validate = .error "retry_base_delay_ms must not exceed retry_max_delay_ms" ↔
      c.retry_max_delay_ms < c.retry_base_delay_ms) ∧
    (c.validate = .ok () ↔ c.retry_base_delay_ms ≤ c.retry_max_delay_ms) := by
  unfold Config.validate
  rw [if_neg h1, if_neg h2, if_neg h3, if_neg h4, if_neg (by omega), if_neg (by omega),
    if_neg (by omega)]
  by_cases h : c.retry_max_delay_ms < c.retry_base_delay_ms
  · rw [if_pos h]
    constructor
    · exact ⟨fun _ => h, fun _ => rfl⟩
    · constructor
      · intro hc
        cases hc
      · intro hc
        omega
  · rw [if_neg h, if_neg (by rw [not_or]; exact ⟨not_lt.mpr h8, not_lt.mpr h9⟩),
      if_neg (by omega)]
    constructor
    · constructor
      · intro hc
        cases hc
      · intro hc
        omega
    · exact ⟨fun _ => by omega, fun _ => rfl⟩

/-- Witness for C6: the spec scenario base 5000, max 1000 fails with the
base/max error, and the same configuration with max 20000 validates. -/
theorem c6_validate_base_le_max_witness :
    ((Config.mk "id" "secret" "scope" "url" "lsrc" "pool" 3 5000 1000 0 30).validate =
      .error "retry_base_delay_ms must not exceed retry_max_delay_ms") ∧
    ((Config.mk "id" "secret" "scope" "url" "lsrc" "pool" 3 1000 20000 0 30).validate =
      .ok ()) :=
  ⟨(c6_validate_base_le_max (Config.mk "id" "secret" "scope" "url" "lsrc" "pool" 3 5000 1000 0 30)
      (by decide) (by decide) (by decide) (by decide) (by decide) (by decide)
      (by decide) le_rfl (by norm_num) (by decide)).1.mpr (by decide),
   (c6_validate_base_le_max (Config.mk "id" "secret" "scope" "url" "lsrc" "pool" 3 1000 20000 0 30)
      (by decide) (by decide) (by decide) (by decide) (by decide) (by decide)
      (by decide) le_rfl (by norm_num) (by decide)).2.mpr (by decide)⟩

/-! ## OAuthClientProvider::fetch_token (src/src/rest/OAuthProvider.cpp, lines 102-165) -/

/-- Parse outcome of a 2xx response body: either a token object with the
required access_token and optional expires_in, or a body that makes the
2xx branch throw (json parse error, or missing access_token field). -/
inductive Body2xx where
  | parsed (access_token : String) (expires_in : Option ℤ)
  | unparsable
  deriving DecidableEq

/-- One HTTP response observed by the retry loop; status 0 models a
network error, body is the parse oracle consulted only on 2xx. -/
structure HttpResponse where
  status : ℤ
  text : String
  body : Body2xx
  deriving DecidableEq

/-- Result of fetch_token: a fetched token, an immediate failure on an
unparsable 2xx body, an error carrying the last status and body text, or
an exhausted response trace (model artifact only). -/
inductive FetchOutcome where
  | token (access_token : String) (expires_in_seconds : ℤ)
  | parse_failure
  | http_error (status : ℤ) (text : String)
  | no_response
  deriving DecidableEq

/-- Embedding of the fetch_token retry loop over an explicit trace of
responses and jitter samples; the second component collects the backoff
delays slept between attempts. On 2xx the body parse is consulted and no
retry ever happens; otherwise should_retry is status 0 (network error,
always retried) or a retriable status at least 400, and the loop retries
while attempt is below max_retries, sleeping the computed backoff. -/
def fetchLoop (max_retries : ℤ) (base maxd : ℕ) :
    List HttpResponse → List ℚ → ℕ → FetchOutcome × List ℤ
  | [], _, _ => (.no_response, [])
  | r :: rest, jitters, attempt =>
    if 200 ≤ r.status ∧ r.status < 300 then
      match r.body with
      | .parsed tok expires_in => (.token tok (expires_in.getD 3600), [])
      | .unparsable => (.parse_failure, [])
    else
      if ¬ (r.status = 0 ∨ (400 ≤ r.status ∧ isRetriable r.status = true)) ∨
          max_retries ≤ (attempt : ℤ) then
        (.http_error r.status r.text, [])
      else
        let d := calculateExponentialBackoff base attempt maxd (jitters.headD 0)
        let res := fetchLoop max_retries base maxd rest jitters.tail (attempt + 1)
        (res.1, d :: res.2)

/-- Embedding of fetch_token: the loop started at attempt 0. -/
def fetch_token (max_retries : ℤ) (base maxd : ℕ)
    (resps : List HttpResponse) (jitters : List ℚ) : FetchOutcome × List ℤ :=
  fetchLoop max_retries base maxd resps jitters 0

/-- Helper: a retriable status is at least 400. -/
theorem isRetriable_ge_400 (s : ℤ) (h : isRetriable s = true) : 400 ≤ s := by
  simp only [isRetriable, Bool.or_eq_true, beq_iff_eq] at h
  rcases h with ((((h | h) | h) | h) | h) | h <;> omega

/-- Helper: a retriable status is never in the 2xx range. -/
theorem isRetriable_not_2xx (s : ℤ) (h : s = 0 ∨ isRetriable s = true) :
    ¬ (200 ≤ s ∧ s < 300) := by
  rcases h with h | h
  · omega
  · have := isRetriable_ge_400 s h
    omega

/-- Helper: the number of backoff sleeps is bounded by the remaining
attempt budget. -/
theorem fetchLoop_sleeps_le (m : ℤ) (b d : ℕ) :
    ∀ (resps : List HttpResponse) (jitters : List ℚ) (attempt : ℕ),
      ((fetchLoop m b d resps jitters attempt).2).length ≤ (m - attempt).toNat := by
  intro resps
  induction resps with
  | nil =>
    intro jitters attempt
    simp [fetchLoop]
  | cons r rest ih =>
    intro jitters attempt
    simp only [fetchLoop]
    split_ifs with h2 hstop
    · cases r.body <;> simp
    · simp
    · have hlt : (attempt : ℤ) < m := by
        rw [not_or] at hstop
        omega
      simp only [List.length_cons]
      have := ih jitters.tail (attempt + 1)
      omega

/-- C2 counterexample: with retry budget 3 remaining, a 2xx response with
an unparsable body makes fetch_token fail immediately with no retry and
no backoff sleep, instead of retrying and obtaining the token from the
next response as the claim requires. -/
theorem c2_fetch_token_counterexample :
    fetch_token 3 1000 20000
        [HttpResponse.mk 200 "bad" Body2xx.unparsable,
         HttpResponse.mk 200 "" (Body2xx.parsed "tok" none)] [] =
      (FetchOutcome.parse_failure, []) ∧
    FetchOutcome.parse_failure ≠ FetchOutcome.token "tok" 3600 := by
  constructor
  · rfl
  · decide

/-- C2 amended: the loop retries, sleeping one computed backoff, on any
response whose status is 0 (network error, always retried even though
isRetriable 0 is false) or whose status is retriable, while the attempt
count is below max_retries; any other non-2xx response, or an exhausted
budget, fails with an error carrying the last status and body; an
unparsable 2xx body fails immediately without any retry; and the number
of backoff sleeps never exceeds max_retries. -/
theorem c2_fetch_token_retries (max_retries : ℤ) (base maxd : ℕ) :
    (∀ (r : HttpResponse) (rest : List HttpResponse) (jitters : List ℚ) (attempt : ℕ),
      (r.status = 0 ∨ isRetriable r.status = true) → (attempt : ℤ) < max_retries →
      fetchLoop max_retries base maxd (r :: rest) jitters attempt =
        ((fetchLoop max_retries base maxd rest jitters.tail (attempt + 1)).1,
         calculateExponentialBackoff base attempt maxd (jitters.headD 0) ::
           (fetchLoop max_retries base maxd rest jitters.tail (attempt + 1)).2)) ∧
    (∀ (r : HttpResponse) (rest : List HttpResponse) (jitters : List ℚ) (attempt : ℕ),
      ¬ (200 ≤ r.status ∧ r.status < 300) →
      (¬ (r.status = 0 ∨ (400 ≤ r.status ∧ isRetriable r.status = true)) ∨
        max_retries ≤ (attempt : ℤ)) →
      fetchLoop max_retries base maxd (r :: rest) jitters attempt =
        (.http_error r.status r.text, [])) ∧
    isRetriable 0 = false ∧
    (∀ (r : HttpResponse) (rest : List HttpResponse) (jitters : List ℚ) (attempt : ℕ),
      200 ≤ r.status → r.status < 300 → r.body = .unparsable →
      fetchLoop max_retries base maxd (r :: rest) jitters attempt =
        (.parse_failure, [])) ∧
    (∀ (resps : List HttpResponse) (jitters : List ℚ),
      ((fetch_token max_retries base maxd resps jitters).2).length ≤ max_retries.toNat) := by
  refine ⟨?_, ?_, rfl, ?_, ?_⟩
  · intro r rest jitters attempt hretry hbudget
    have h2xx := isRetriable_not_2xx r.status hretry
    have hsr : r.status = 0 ∨ (400 ≤ r.status ∧ isRetriable r.status = true) := by
      rcases hretry with h | h
      · exact Or.inl h
      · exact Or.inr ⟨isRetriable_ge_400 r.status h, h⟩
    simp only [fetchLoop]
    rw [if_neg h2xx, if_neg (by rw [not_or]; exact ⟨not_not.mpr hsr, by omega⟩)]
  · intro r rest jitters attempt h2xx hstop
    simp only [fetchLoop]
    rw [if_neg h2xx, if_pos hstop]
  · intro r rest jitters attempt hlo hhi hbody
    simp only [fetchLoop]
    rw [if_pos ⟨hlo, hhi⟩, hbody]
  · intro resps jitters
    have := fetchLoop_sleeps_le max_retries base maxd resps jitters 0
    unfold fetch_token
    omega

/-- Witness for C2 at concrete traces: a network error retries with one
sleep, a 400 fails at once with its status and body, and an unparsable
2xx fails at once with no sleep. -/
theorem c2_fetch_token_retries_witness :
    (fetchLoop 3 1000 20000 [HttpResponse.mk 0 "" Body2xx.unparsable] [] 0 =
      ((fetchLoop 3 1000 20000 [] [] 1).1,
       calculateExponentialBackoff 1000 0 20000 0 ::
         (fetchLoop 3 1000 20000 [] [] 1).2)) ∧
    (fetchLoop 3 1000 20000 [HttpResponse.mk 400 "bad" Body2xx.unparsable] [] 0 =
      (.http_error 400 "bad", [])) ∧
    (fetchLoop 3 1000 20000 [HttpResponse.mk 222 "t" Body2xx.unparsable] [] 0 =
      (.parse_failure, [])) :=
  ⟨(c2_fetch_token_retries 3 1000 20000).1 (HttpResponse.mk 0 "" Body2xx.unparsable) [] [] 0
      (Or.inl rfl) (by decide),
   (c2_fetch_token_retries 3 1000 20000).2.1 (HttpResponse.mk 400 "bad" Body2xx.unparsable) [] [] 0
      (by decide) (by decide),
   (c2_fetch_token_retries 3 1000 20000).2.2.2.1 (HttpResponse.mk 222 "t" Body2xx.unparsable) [] [] 0
      (by decide) (by decide) rfl⟩

/-! ## SchemaRegistryClient::createMetadataKey
(src/src/rest/SchemaRegistryClient.cpp, lines 75-89); strings are
modelled as lists of characters so the key can be dissected. -/

/-- Byte-wise lexicographic comparison, modelling the std::string
operator used by std::map to order the metadata keys. -/
def strLt : List Char → List Char → Bool
  | _, [] => false
  | [], _ :: _ => true
  | a :: as, b :: bs =>
    if a.toNat < b.toNat then true
    else if b.toNat < a.toNat then false
    else strLt as bs

/-- Ordered insertion modelling std::map insertion: the pair goes in
front of the first strictly larger key, and a pair whose key is already
present is discarded (map insertion keeps the existing entry). -/
def insertSorted (p : List Char × List Char) :
    List (List Char × List Char) → List (List Char × List Char)
  | [] => [p]
  | q :: rest =>
    if strLt p.1 q.1 then p :: q :: rest
    else if p.1 = q.1 then q :: rest
    else q :: insertSorted p rest

/-- The sorted std::map built from the metadata pairs in enumeration
order, as used by createMetadataKey. -/
def sortedMetadata (md : List (List Char × List Char)) :
    List (List Char × List Char) :=
  md.foldl (fun acc p => insertSorted p acc) []

/-- One loop iteration of createMetadataKey: key, equals sign, value,
ampersand. -/
def entryChars (p : List Char × List Char) : List Char :=
  p.1 ++ '=' :: (p.2 ++ ['&'])

/-- Embedding of createMetadataKey: subject, pipe, then the sorted
metadata entries. -/
def createMetadataKey (subject : List Char)
    (metadata : List (List Char × List Char)) : List Char :=
  subject ++ '|' :: ((sortedMetadata metadata).map entryChars).flatten

/-- Helper: characters with equal toNat are equal. -/
theorem charToNat_inj (x y : Char) (h : x.toNat = y.toNat) : x = y := by
  apply Char.ext
  apply UInt32.ext
  exact h

/-- Helper: strLt is asymmetric. -/
theorem strLt_asymm : ∀ a b : List Char, strLt a b = true → strLt b a = false := by
  intro a
  induction a with
  | nil =>
    intro b _
    cases b with
    | nil => rfl
    | cons y ys => rfl
  | cons x xs ih =>
    intro b h
    cases b with
    | nil => simp [strLt] at h
    | cons y ys =>
      simp only [strLt] at h ⊢
      by_cases h1 : x.toNat < y.toNat
      · rw [if_neg (by omega), if_pos h1]
      · by_cases h2 : y.toNat < x.toNat
        · rw [if_neg h1, if_pos h2] at h
          exact absurd h (by simp)
        · rw [if_neg h1, if_neg h2] at h
          rw [if_neg h2, if_neg h1]
          exact ih ys h

/-- Helper: if neither list is strLt-below the other they are equal. -/
theorem strLt_eq_of_not : ∀ a b : List Char,
    strLt a b = false → strLt b a = false → a = b := by
  intro a
  induction a with
  | nil =>
    intro b h _
    cases b with
    | nil => rfl
    | cons y ys => simp [strLt] at h
  | cons x xs ih =>
    intro b h h2
    cases b with
    | nil => simp [strLt] at h2
    | cons y ys =>
      simp only [strLt] at h h2
      by_cases h3 : x.toNat < y.toNat
      · rw [if_pos h3] at h
        exact absurd h (by simp)
      · by_cases h4 : y.toNat < x.toNat
        · rw [if_pos h4] at h2
          exact absurd h2 (by simp)
        · have hxy : x = y := charToNat_inj x y (by omega)
          rw [if_neg h3, if_neg h4] at h
          rw [if_neg h4, if_neg h3] at h2
          rw [hxy, ih ys h h2]

/-- Helper: strLt is transitive. -/
theorem strLt_trans : ∀ a b c : List Char,
    strLt a b = true → strLt b c = true → strLt a c = true := by
  intro a
  induction a with
  | nil =>
    intro b c hab hbc
    cases c with
    | nil =>
      cases b with
      | nil => simp [strLt] at hab
      | cons y ys => simp [strLt] at hbc
    | cons z zs => rfl
  | cons x xs ih =>
    intro b c hab hbc
    cases b with
    | nil => simp [strLt] at hab
    | cons y ys =>
      cases c with
      | nil => simp [strLt] at hbc
      | cons z zs =>
        simp only [strLt] at hab hbc ⊢
        by_cases h1 : x.toNat < y.toNat
        · by_cases h3 : y.toNat < z.toNat
          · rw [if_pos (by omega : x.toNat < z.toNat)]
          · by_cases h4 : z.toNat < y.toNat
            · rw [if_neg h3, if_pos h4] at hbc
              exact absurd hbc (by simp)
            · rw [if_pos (by omega : x.toNat < z.toNat)]
        · by_cases h2 : y.toNat < x.toNat
          · rw [if_neg h1, if_pos h2] at hab
            exact absurd hab (by simp)
          · rw [if_neg h1, if_neg h2] at hab
            by_cases h3 : y.toNat < z.toNat
            · rw [if_pos (by omega : x.toNat < z.toNat)]
            · by_cases h4 : z.toNat < y.toNat
              · rw [if_neg h3, if_pos h4] at hbc
                exact absurd hbc (by simp)
              · rw [if_neg h3, if_neg h4] at hbc
                rw [if_neg (by omega : ¬ x.toNat < z.toNat),
                  if_neg (by omega : ¬ z.toNat < x.toNat)]
                exact ih ys zs hab hbc

/-- Strict key order on metadata pairs, the order std::map keeps. -/
def keyLt (a b : List Char × List Char) : Prop :=
  strLt a.1 b.1 = true

/-- Helper: membership after an ordered insert. -/
theorem mem_insertSorted (p x : List Char × List Char) :
    ∀ l, x ∈ insertSorted p l → x = p ∨ x ∈ l := by
  intro l
  induction l with
  | nil =>
    intro h
    simp only [insertSorted, List.mem_singleton] at h
    exact Or.inl h
  | cons q rest ih =>
    intro h
    simp only [insertSorted] at h
    split_ifs at h with h1 h2
    · rcases List.mem_cons.mp h with h | h
      · exact Or.inl h
      · exact Or.inr h
    · exact Or.inr h
    · rcases List.mem_cons.mp h with h | h
      · exact Or.inr (by simp [h])
      · rcases ih h with h | h
        · exact Or.inl h
        · exact Or.inr (List.mem_cons_of_mem q h)

/-- Helper: ordered insert preserves strict sortedness by key. -/
theorem insertSorted_sorted (p : List Char × List Char) :
    ∀ l, List.Sorted keyLt l → List.Sorted keyLt (insertSorted p l) := by
  intro l
  induction l with
  | nil =>
    intro _
    simp [insertSorted]
  | cons q rest ih =>
    intro hs
    simp only [insertSorted]
    split_ifs with h1 h2
    · rw [List.sorted_cons]
      refine ⟨?_, hs⟩
      intro b hb
      rcases List.mem_cons.mp hb with rfl | hb
      · exact h1
      · exact strLt_trans _ _ _ h1 ((List.sorted_cons.mp hs).1 b hb)
    · exact hs
    · rw [List.sorted_cons] at hs ⊢
      refine ⟨?_, ih hs.2⟩
      intro b hb
      rcases mem_insertSorted p b rest hb with rfl | hb
      · have h1f : strLt b.1 q.1 = false := by
          simpa using h1
        cases hqb : strLt q.1 b.1 with
        | false => exact absurd (strLt_eq_of_not b.1 q.1 h1f hqb) h2
        | true => exact hqb
      · exact hs.1 b hb

/-- Helper: the std::map built by createMetadataKey is sorted by key. -/
theorem sortedMetadata_sorted (md : List (List Char × List Char)) :
    List.Sorted keyLt (sortedMetadata md) := by
  suffices h : ∀ (l : List (List Char × List Char)) acc, List.Sorted keyLt acc →
      List.Sorted keyLt (l.foldl (fun acc p => insertSorted p acc) acc) by
    exact h md [] (by simp)
  intro l
  induction l with
  | nil =>
    intro acc h
    simpa using h
  | cons p rest ih =>
    intro acc h
    exact ih _ (insertSorted_sorted p acc h)

/-- Helper: inserting a fresh key is a permutation of consing the pair. -/
theorem insertSorted_perm (p : List Char × List Char) :
    ∀ l, p.1 ∉ l.map Prod.fst → List.Perm (insertSorted p l) (p :: l) := by
  intro l
  induction l with
  | nil =>
    intro _
    simp [insertSorted]
  | cons q rest ih =>
    intro hfresh
    simp only [List.map_cons, List.mem_cons, not_or] at hfresh
    simp only [insertSorted]
    split_ifs with h1 h2
    · exact List.Perm.refl _
    · exact absurd h2 hfresh.1
    · exact (List.Perm.cons q (ih hfresh.2)).trans (List.Perm.swap p q rest)

/-- Helper: with duplicate-free keys the sorted map is a permutation of
the enumerated pairs. -/
theorem sortedMetadata_perm :
    ∀ (md : List (List Char × List Char)), (md.map Prod.fst).Nodup →
      List.Perm (sortedMetadata md) md := by
  suffices h : ∀ (l acc : List (List Char × List Char)),
      ((l ++ acc).map Prod.fst).Nodup →
      List.Perm (l.foldl (fun acc p => insertSorted p acc) acc) (l ++ acc) by
    intro md hnd
    have := h md [] (by simpa using hnd)
    simpa using this
  intro l
  induction l with
  | nil =>
    intro acc _
    simp [List.Perm.refl]
  | cons p rest ih =>
    intro acc hnd
    have hnd1 : (List.map Prod.fst (p :: (rest ++ acc))).Nodup := by
      simpa using hnd
    rw [List.map_cons, List.nodup_cons] at hnd1
    have hfresh : p.1 ∉ acc.map Prod.fst := by
      intro hmem
      exact hnd1.1 (by rw [List.map_append]; exact List.mem_append_right _ hmem)
    have hins : List.Perm (insertSorted p acc) (p :: acc) := insertSorted_perm p acc hfresh
    have e1 : List.Perm (rest ++ insertSorted p acc) (rest ++ (p :: acc)) :=
      hins.append_left rest
    have e2 : List.Perm (rest ++ (p :: acc)) (p :: (rest ++ acc)) := List.perm_middle
    have hnd2 : ((rest ++ insertSorted p acc).map Prod.fst).Nodup := by
      refine (((e1.trans e2).map Prod.fst).symm).nodup ?_
      simpa using hnd
    have hstep : (p :: rest).foldl (fun acc q => insertSorted q acc) acc =
        rest.foldl (fun acc q => insertSorted q acc) (insertSorted p acc) := rfl
    rw [hstep, show (p :: rest) ++ acc = p :: (rest ++ acc) from rfl]
    exact ((ih (insertSorted p acc) hnd2).trans e1).trans e2

/-- Helper: every entry of the sorted map is one of the enumerated pairs. -/
theorem mem_sortedMetadata (x : List Char × List Char) :
    ∀ (md : List (List Char × List Char)), x ∈ sortedMetadata md → x ∈ md := by
  suffices h : ∀ (l acc : List (List Char × List Char)),
      x ∈ l.foldl (fun acc p => insertSorted p acc) acc → x ∈ l ∨ x ∈ acc by
    intro md hmem
    rcases h md [] hmem with hm | hm
    · exact hm
    · simp at hm
  intro l
  induction l with
  | nil =>
    intro acc h
    exact Or.inr h
  | cons p rest ih =>
    intro acc h
    rcases ih (insertSorted p acc) h with hm | hm
    · exact Or.inl (List.mem_cons_of_mem p hm)
    · rcases mem_insertSorted p x acc hm with rfl | hm
      · exact Or.inl (List.mem_cons_self _ _)
      · exact Or.inr hm

/-- Helper: two enumerations of the same duplicate-free map sort to the
same list. -/
theorem sortedMetadata_eq_of_perm (md₁ md₂ : List (List Char × List Char))
    (hp : List.Perm md₁ md₂) (hnd : (md₁.map Prod.fst).Nodup) :
    sortedMetadata md₁ = sortedMetadata md₂ := by
  haveI : IsAntisymm (List Char × List Char) keyLt :=
    ⟨fun a b h1 h2 => absurd h2 (by simp [keyLt, strLt_asymm _ _ h1])⟩
  have hnd₂ : (md₂.map Prod.fst).Nodup := (hp.map Prod.fst).nodup hnd
  exact List.eq_of_perm_of_sorted
    (((sortedMetadata_perm md₁ hnd).trans hp).trans (sortedMetadata_perm md₂ hnd₂).symm)
    (sortedMetadata_sorted md₁) (sortedMetadata_sorted md₂)

/-- Helper: splitting two appended lists at a separator character absent
from both prefixes. -/
theorem append_cons_inj (c : Char) :
    ∀ (l₁ l₂ r₁ r₂ : List Char), c ∉ l₁ → c ∉ l₂ →
      l₁ ++ c :: r₁ = l₂ ++ c :: r₂ → l₁ = l₂ ∧ r₁ = r₂ := by
  intro l₁
  induction l₁ with
  | nil =>
    intro l₂ r₁ r₂ _ hc2 h
    cases l₂ with
    | nil =>
      simp only [List.nil_append] at h
      exact ⟨rfl, by injection h⟩
    | cons b t =>
      simp only [List.nil_append, List.cons_append] at h
      injection h with h1 _
      exact absurd (h1 ▸ List.mem_cons_self b t) hc2
  | cons a t₁ ih =>
    intro l₂ r₁ r₂ hc1 hc2 h
    cases l₂ with
    | nil =>
      simp only [List.cons_append, List.nil_append] at h
      injection h with h1 _
      exact absurd (h1 ▸ List.mem_cons_self a t₁) hc1
    | cons b t₂ =>
      simp only [List.cons_append] at h
      injection h with h1 h2
      subst h1
      have hrec := ih t₂ r₁ r₂ (fun hm => hc1 (List.mem_cons_of_mem a hm))
        (fun hm => hc2 (List.mem_cons_of_mem a hm)) h2
      exact ⟨by rw [hrec.1], hrec.2⟩

/-- Helper: the concatenation of key=value& entries determines the entry
list when keys are free of the equals sign and values free of the
ampersand. -/
theorem entry_flatten_inj :
    ∀ (l₁ l₂ : List (List Char × List Char)),
      (∀ p ∈ l₁, '=' ∉ p.1 ∧ '&' ∉ p.2) → (∀ p ∈ l₂, '=' ∉ p.1 ∧ '&' ∉ p.2) →
      (l₁.map entryChars).flatten = (l₂.map entryChars).flatten → l₁ = l₂ := by
  intro l₁
  induction l₁ with
  | nil =>
    intro l₂ _ _ h
    cases l₂ with
    | nil => rfl
    | cons q t =>
      exfalso
      have hlen := congrArg List.length h
      simp [entryChars] at hlen
      omega
  | cons p t₁ ih =>
    intro l₂ hg1 hg2 h
    cases l₂ with
    | nil =>
      exfalso
      have hlen := congrArg List.length h
      simp [entryChars] at hlen
    | cons q t₂ =>
      simp only [List.map_cons, List.flatten_cons, entryChars, List.append_assoc,
        List.cons_append, List.singleton_append] at h
      obtain ⟨hk, hrest⟩ := append_cons_inj '=' p.1 q.1 _ _
        (hg1 p (List.mem_cons_self _ _)).1 (hg2 q (List.mem_cons_self _ _)).1 h
      obtain ⟨hv, hj⟩ := append_cons_inj '&' p.2 q.2 _ _
        (hg1 p (List.mem_cons_self _ _)).2 (hg2 q (List.mem_cons_self _ _)).2 hrest
      have ht : t₁ = t₂ := ih t₂ (fun r hr => hg1 r (List.mem_cons_of_mem p hr))
        (fun r hr => hg2 r (List.mem_cons_of_mem q hr)) hj
      have hpq : p = q := Prod.ext hk hv
      rw [hpq, ht]

/-- C5 counterexample: the single pair k = v&k2=v2 and the two pairs
k = v, k2 = v2 are different metadata maps over the same subject, yet
createMetadataKey gives both the same key, so equal keys do not imply
equal metadata. -/
theorem c5_createMetadataKey_counterexample :
    createMetadataKey "s".toList [("k".toList, "v&k2=v2".toList)] =
      createMetadataKey "s".toList [("k".toList, "v".toList), ("k2".toList, "v2".toList)] ∧
    ¬ List.Perm [("k".toList, "v&k2=v2".toList)]
        [("k".toList, "v".toList), ("k2".toList, "v2".toList)] := by
  constructor
  · rfl
  · intro h
    simpa using h.length_eq

/-- C5 amended: createMetadataKey is order-independent — any two
enumeration orders of a duplicate-free metadata map give the same key —
and it is collision-free on the delimiter-free fragment: when the
subjects contain no pipe, the metadata keys no equals sign and the
metadata values no ampersand, equal cache keys force equal subjects and
equal (permutation-equivalent) metadata; outside that fragment
collisions exist. -/
theorem c5_createMetadataKey_amended :
    (∀ (subject : List Char) (md₁ md₂ : List (List Char × List Char)),
      List.Perm md₁ md₂ → (md₁.map Prod.fst).Nodup →
      createMetadataKey subject md₁ = createMetadataKey subject md₂) ∧
    (∀ (s₁ s₂ : List Char) (md₁ md₂ : List (List Char × List Char)),
      '|' ∉ s₁ → '|' ∉ s₂ →
      (∀ p ∈ md₁, '=' ∉ p.1 ∧ '&' ∉ p.2) →
      (∀ p ∈ md₂, '=' ∉ p.1 ∧ '&' ∉ p.2) →
      (md₁.map Prod.fst).Nodup → (md₂.map Prod.fst).Nodup →
      createMetadataKey s₁ md₁ = createMetadataKey s₂ md₂ →
      s₁ = s₂ ∧ List.Perm md₁ md₂) := by
  constructor
  · intro subject md₁ md₂ hp hnd
    unfold createMetadataKey
    rw [sortedMetadata_eq_of_perm md₁ md₂ hp hnd]
  · intro s₁ s₂ md₁ md₂ hp1 hp2 hg1 hg2 hnd1 hnd2 h
    unfold createMetadataKey at h
    obtain ⟨hs, hflat⟩ := append_cons_inj '|' s₁ s₂ _ _ hp1 hp2 h
    have hsorted : sortedMetadata md₁ = sortedMetadata md₂ :=
      entry_flatten_inj (sortedMetadata md₁) (sortedMetadata md₂)
        (fun p hm => hg1 p (mem_sortedMetadata p md₁ hm))
        (fun p hm => hg2 p (mem_sortedMetadata p md₂ hm)) hflat
    refine ⟨hs, ?_⟩
    exact ((sortedMetadata_perm md₁ hnd1).symm.trans (hsorted ▸ List.Perm.refl _)).trans
      (sortedMetadata_perm md₂ hnd2)

/-- Witness for C5 amended: two enumeration orders of the same two-pair
map give the same key, and on delimiter-free inputs an equal key forces
equal inputs. -/
theorem c5_createMetadataKey_amended_witness :
    (createMetadataKey "s".toList [("k".toList, "v".toList), ("j".toList, "w".toList)] =
      createMetadataKey "s".toList [("j".toList, "w".toList), ("k".toList, "v".toList)]) ∧
    ("s".toList = "s".toList ∧
      List.Perm [("k".toList, "v".toList)] [("k".toList, "v".toList)]) :=
  ⟨c5_createMetadataKey_amended.1 "s".toList _ _
      (List.Perm.swap ("j".toList, "w".toList) ("k".toList, "v".toList) [])
      (by decide),
   c5_createMetadataKey_amended.2 "s".toList "s".toList _ _
      (by decide) (by decide) (by decide) (by decide) (by decide) (by decide) rfl⟩

/-! ## getJsonSchemaRecordName (src/src/serdes/json/JsonDeserializer.cpp, lines 10-35) -/

/-- Minimal JSON value model for the parsed schema document. -/
inductive Jsonv where
  | jnull
  | jbool (b : Bool)
  | jnum (n : ℤ)
  | jstr (s : String)
  | jarr (elems : List Jsonv)
  | jobj (fields : List (String × Jsonv))

/-- Field lookup on a JSON object; nlohmann objects have unique keys. -/
def jlookup (key : String) : List (String × Jsonv) → Option Jsonv
  | [] => none
  | (k, v) :: rest => if k = key then some v else jlookup key rest

/-- Characters after the last slash (the whole list when no slash occurs,
the empty list when the last character is a slash). -/
def afterLastSlash (s : List Char) : List Char :=
  (s.reverse.takeWhile (fun c => c != '/')).reverse

/-- Embedding of the $id branch: find_last_of then substr(pos+1) when
the slash exists and is not the final character, else the whole id. -/
def getRecordNameFromId (id : String) : String :=
  if '/' ∈ id.data ∧ afterLastSlash id.data ≠ [] then
    String.mk (afterLastSlash id.data)
  else id

/-- Embedding of getJsonSchemaRecordName over the parse oracle: none
models an absent schema, an absent schema string, or unparsable schema
text (the catch-all returns the empty string in every such case). -/
def getJsonSchemaRecordName (parsed : Option Jsonv) : String :=
  match parsed with
  | some (.jobj fields) =>
    match jlookup "title" fields with
    | some (.jstr t) => t
    | _ =>
      match jlookup "$id" fields with
      | some (.jstr id) => getRecordNameFromId id
      | _ => ""
  | _ => ""

/-- Formalisation of the claim wording: the last path segment of a URI
is the portion after the final slash, the whole string when no slash
occurs. -/
def lastPathSegmentSpec (id : String) : String :=
  String.mk (afterLastSlash id.data)

/-- Formalisation of the claim wording for record-name extraction:
title first, else the last path segment of the $id, else empty. -/
def recordNameSpec (parsed : Option Jsonv) : String :=
  match parsed with
  | some (.jobj fields) =>
    match jlookup "title" fields with
    | some (.jstr t) => t
    | _ =>
      match jlookup "$id" fields with
      | some (.jstr id) => lastPathSegmentSpec id
      | _ => ""
  | _ => ""

/-- C8 counterexample: a schema whose $id is the string a/ (ending in a
slash): the code returns the whole id a/, while the last path segment
after the final slash is empty, so the claim fails on this input. -/
theorem c8_record_name_counterexample :
    getJsonSchemaRecordName (some (.jobj [("$id", .jstr "a/")])) = "a/" ∧
    recordNameSpec (some (.jobj [("$id", .jstr "a/")])) = "" ∧
    getJsonSchemaRecordName (some (.jobj [("$id", .jstr "a/")])) ≠
      recordNameSpec (some (.jobj [("$id", .jstr "a/")])) := by
  refine ⟨rfl, rfl, by decide⟩

/-- C8 amended: record-name extraction returns a top-level string title
field when present; otherwise, for a top-level string $id field it
returns the portion of $id after the last slash when a slash occurs
before the final character — which is then exactly the last path
segment — and the whole $id when $id has no slash (where the two notions
also agree) or ends with a slash; otherwise (absent schema, unparsable
text, non-object document) it returns the empty string. -/
theorem c8_record_name_amended :
    (∀ (fields : List (String × Jsonv)) (t : String),
      jlookup "title" fields = some (.jstr t) →
      getJsonSchemaRecordName (some (.jobj fields)) = t) ∧
    (∀ (fields : List (String × Jsonv)) (id : String),
      (∀ v, jlookup "title" fields = some v → ∀ s, v ≠ .jstr s) →
      jlookup "$id" fields = some (.jstr id) →
      getJsonSchemaRecordName (some (.jobj fields)) = getRecordNameFromId id) ∧
    (∀ id : String, ('/' ∉ id.data ∨ afterLastSlash id.data ≠ []) →
      getRecordNameFromId id = lastPathSegmentSpec id) ∧
    (∀ id : String, '/' ∈ id.data → afterLastSlash id.data = [] →
      getRecordNameFromId id = id) ∧
    (getJsonSchemaRecordName none = "") ∧
    (∀ j : Jsonv, (∀ fields, j ≠ .jobj fields) →
      getJsonSchemaRecordName (some j) = "") := by
  refine ⟨?_, ?_, ?_, ?_, rfl, ?_⟩
  · intro fields t h
    simp [getJsonSchemaRecordName, h]
  · intro fields id htitle hid
    cases h : jlookup "title" fields with
    | none => simp [getJsonSchemaRecordName, h, hid]
    | some v =>
      cases v
      case jstr t => exact absurd rfl (htitle _ h t)
      all_goals simp [getJsonSchemaRecordName, h, hid]
  · intro id h
    by_cases hmem : '/' ∈ id.data
    · rcases h with h | h
      · exact absurd hmem h
      · unfold getRecordNameFromId lastPathSegmentSpec
        rw [if_pos ⟨hmem, h⟩]
    · have hall : afterLastSlash id.data = id.data := by
        unfold afterLastSlash
        rw [List.takeWhile_eq_self_iff.mpr, List.reverse_reverse]
        intro c hc
        simp only [bne_iff_ne, ne_eq]
        intro hceq
        subst hceq
        exact hmem ((List.mem_reverse).mp hc)
      unfold getRecordNameFromId lastPathSegmentSpec
      rw [if_neg (fun hc => hmem hc.1), hall]
  · intro id hmem hempty
    unfold getRecordNameFromId
    rw [if_neg (fun hc => hc.2 hempty)]
  · intro j h
    cases j with
    | jobj fields => exact absurd rfl (h fields)
    | jnull => rfl
    | jbool b => rfl
    | jnum n => rfl
    | jarr es => rfl
    | jstr s => rfl

/-- Witness for C8 amended at concrete schema documents. -/
theorem c8_record_name_amended_witness :
    (getJsonSchemaRecordName (some (.jobj [("title", .jstr "Widget")])) = "Widget") ∧
    (getJsonSchemaRecordName (some (.jobj [("$id", .jstr "http://x/Widget")])) =
      getRecordNameFromId "http://x/Widget") ∧
    (getRecordNameFromId "http://x/Widget" = lastPathSegmentSpec "http://x/Widget") ∧
    (getRecordNameFromId "a/" = "a/") ∧
    (getJsonSchemaRecordName (some (.jstr "notanobject")) = "") :=
  ⟨c8_record_name_amended.1 [("title", .jstr "Widget")] "Widget" rfl,
   c8_record_name_amended.2.1 [("$id", .jstr "http://x/Widget")] "http://x/Widget"
     (fun v hv => by simp [jlookup] at hv) rfl,
   c8_record_name_amended.2.2.1 "http://x/Widget" (Or.inr (by decide)),
   c8_record_name_amended.2.2.2.1 "a/" (by decide) (by decide),
   c8_record_name_amended.2.2.2.2.2 (.jstr "notanobject") (fun fields h => by cases h)⟩

/-! ## Deserializer schema evolution
(src/src/serdes/json/JsonDeserializer.cpp, lines 133-188) -/

/-- Registered schema as returned by the registry; the schema document
itself is carried as its canonical string. -/
structure RegisteredSchema where
  id : ℤ
  guid : String
  subject : String
  version : ℤ
  schema : String
  deriving DecidableEq

/-- Direction of one migration step. -/
inductive Direction where
  | upgrade
  | downgrade
  deriving DecidableEq

/-- One migration step: a direction and the rule set of the version the
step leads through. -/
structure Migration where
  direction : Direction
  rule_set : Option (List String)

/-- Modelled from the spec: Serde::getMigrations (the MigrationPlanner of
section 4.5) is not among the source files, only its caller in
JsonDeserializer.cpp is. Per the spec, if writer and reader identify the
same schema by (subject, version) the chain is empty; otherwise the
planner walks the subject's version history between writer and reader,
ordered by version, one step per version in the direction from writer to
reader, using each version's rule set. The version history is passed
explicitly as (version, rule_set) pairs ordered by version. -/
def getMigrations (history : List (ℤ × Option (List String)))
    (writer reader : RegisteredSchema) : List Migration :=
  if writer.subject = reader.subject ∧ writer.version = reader.version then []
  else if writer.version < reader.version then
    (history.filter (fun p => decide (writer.version < p.1 ∧ p.1 ≤ reader.version))).map
      (fun p => Migration.mk .upgrade p.2)
  else
    ((history.filter (fun p => decide (reader.version ≤ p.1 ∧ p.1 < writer.version))).reverse).map
      (fun p => Migration.mk .downgrade p.2)

/-- Embedding of the schema-evolution branch of deserialize (lines
133-151): with a reader (latest) schema found, compute the migration
chain and use the latest schema as reader; with none, the chain is empty
and the writer schema doubles as the reader schema. -/
def schemaEvolution {S : Type} (getMigs : RegisteredSchema → List Migration)
    (toSchema : RegisteredSchema → S)
    (latest_schema : Option RegisteredSchema) (writer_schema : S) :
    List Migration × S :=
  match latest_schema with
  | some latest => (getMigs latest, toSchema latest)
  | none => ([], writer_schema)

/-- Embedding of the value pipeline after decoding (lines 163-188): the
migrations run only when the chain is nonempty, then the domain-phase
rules always run with the reader schema. -/
def applyMigrationsAndRules {S V : Type}
    (executeMigrationsFn : List Migration → V → V)
    (executeRulesFn : S → V → V)
    (migrations : List Migration) (reader_schema : S) (value : V) : V :=
  executeRulesFn reader_schema
    (if !migrations.isEmpty then executeMigrationsFn migrations value else value)

/-- Composition of the two stages as deserialize performs them. -/
def deserializeTail {S V : Type} (getMigs : RegisteredSchema → List Migration)
    (toSchema : RegisteredSchema → S)
    (executeMigrationsFn : List Migration → V → V)
    (executeRulesFn : S → V → V)
    (latest_schema : Option RegisteredSchema) (writer_schema : S) (decoded : V) : V :=
  applyMigrationsAndRules executeMigrationsFn executeRulesFn
    (schemaEvolution getMigs toSchema latest_schema writer_schema).1
    (schemaEvolution getMigs toSchema latest_schema writer_schema).2 decoded

/-- C7: with no reader schema found the deserializer uses the writer
schema as reader schema with an empty migration chain, so the decoded
value only passes through the domain-phase rules; and when writer and
reader identify the same schema (same subject and version) the planned
chain is likewise empty, so again only domain rules run. -/
theorem c7_no_reader_no_migration :
    (∀ {S V : Type} (getMigs : RegisteredSchema → List Migration)
       (toSchema : RegisteredSchema → S)
       (em : List Migration → V → V) (er : S → V → V) (writer : S) (decoded : V),
      schemaEvolution getMigs toSchema none writer = ([], writer) ∧
      deserializeTail getMigs toSchema em er none writer decoded = er writer decoded) ∧
    (∀ (history : List (ℤ × Option (List String))) (writer reader : RegisteredSchema),
      writer.subject = reader.subject → writer.version = reader.version →
      getMigrations history writer reader = []) ∧
    (∀ {S V : Type} (em : List Migration → V → V) (er : S → V → V)
       (reader : S) (v : V),
      applyMigrationsAndRules em er [] reader v = er reader v) := by
  refine ⟨?_, ?_, ?_⟩
  · intro S V getMigs toSchema em er writer decoded
    exact ⟨rfl, rfl⟩
  · intro history writer reader h1 h2
    unfold getMigrations
    rw [if_pos ⟨h1, h2⟩]
  · intro S V em er reader v
    rfl

/-- Witness for C7 at a concrete same-version pair and a concrete
pipeline. -/
theorem c7_no_reader_no_migration_witness :
    getMigrations [(1, none), (2, none)]
      (RegisteredSchema.mk 1 "g1" "subj" 3 "sch")
      (RegisteredSchema.mk 1 "g2" "subj" 3 "sch") = [] ∧
    deserializeTail (fun _ => []) (fun r => r.schema)
      (fun _ v => v + 100) (fun _ v => v + 1) none "writer" (5 : ℤ) = 6 := by
  constructor
  · exact c7_no_reader_no_migration.2.1 [(1, none), (2, none)]
      (RegisteredSchema.mk 1 "g1" "subj" 3 "sch")
      (RegisteredSchema.mk 1 "g2" "subj" 3 "sch") rfl rfl
  · rw [(c7_no_reader_no_migration.1 (fun _ => []) (fun r => r.schema)
      (fun _ v => v + 100) (fun _ v => v + 1) "writer" (5 : ℤ)).2]
    decide

/-! ## SchemaRegistryClient delete operations
(src/src/rest/SchemaRegistryClient.cpp, lines 484-518) -/

/-- Modelled from the spec: the SchemaStore class (section 3) is not
among the source files; its four views are carried as association
lists. Its content is irrelevant to the delete operations, which never
touch it. -/
structure SchemaStore where
  by_schema : List ((String × String) × RegisteredSchema)
  by_version : List ((String × ℤ) × RegisteredSchema)
  by_id : List ((String × ℤ) × (String × String))
  by_guid : List (String × String)

/-- Modelled from the spec: the TTL cache (sections 3 and 4.3) stores
(key, value, inserted_at) and treats entries older than ttl as absent on
read. -/
structure TtlCache where
  entries : List (String × RegisteredSchema × ℤ)

/-- Lazy-expiry read of the TTL cache. -/
def TtlCache.get (c : TtlCache) (key : String) (now ttl : ℤ) :
    Option RegisteredSchema :=
  match c.entries.find? (fun e => e.1 == key) with
  | some (_, v, inserted) => if ttl < now - inserted then none else some v
  | none => none

/-- Modelled from the spec: insert or update one cache entry stamped with
the insertion time. -/
def TtlCache.put (c : TtlCache) (key : String) (v : RegisteredSchema)
    (now : ℤ) : TtlCache :=
  ⟨(key, v, now) :: c.entries.filter (fun e => !(e.1 == key))⟩

/-- The mutable state of one SchemaRegistryClient: the schema store and
the two latest caches. -/
structure ClientState where
  store : SchemaStore
  latestVersionCache : TtlCache
  latestWithMetadataCache : TtlCache

/-- One HTTP reply observed by an operation. -/
structure RestResult where
  status : ℤ
  text : String

/-- Errors surfaced by the client. -/
inductive RestError where
  | httpError (status : ℤ) (text : String)
  | parseError
  deriving DecidableEq

/-- Embedding of sendHttpRequest: any status of at least 400 becomes a
RestException carrying status and body, otherwise the body is returned. -/
def sendHttpRequest (resp : RestResult) : Except RestError String :=
  if 400 ≤ resp.status then .error (.httpError resp.status resp.text)
  else .ok resp.text

/-- Embedding of deleteSubject: build the request, send it, parse the
int array from the body (the JSON parse is the oracle argument); the
client state is never touched. -/
def deleteSubject (st : ClientState) (resp : RestResult)
    (parseIntArray : String → Option (List ℤ)) :
    ClientState × Except RestError (List ℤ) :=
  (st,
    match sendHttpRequest resp with
    | .error e => .error e
    | .ok body =>
      match parseIntArray body with
      | some versions => .ok versions
      | none => .error .parseError)

/-- Embedding of deleteSubjectVersion: same shape, parsing one int. -/
def deleteSubjectVersion (st : ClientState) (resp : RestResult)
    (parseInt : String → Option ℤ) :
    ClientState × Except RestError ℤ :=
  (st,
    match sendHttpRequest resp with
    | .error e => .error e
    | .ok body =>
      match parseInt body with
      | some version => .ok version
      | none => .error .parseError)

/-- Embedding of getLatestVersion (lines 391-418), for contrast: it
reads the latest-version cache and writes it through after a parsed
successful response. -/
def getLatestVersion (st : ClientState) (subject : String) (now ttl : ℤ)
    (resp : RestResult) (parseRegistered : String → Option RegisteredSchema) :
    ClientState × Except RestError RegisteredSchema :=
  match st.latestVersionCache.get subject now ttl with
  | some cached => (st, .ok cached)
  | none =>
    match sendHttpRequest resp with
    | .error e => (st, .error e)
    | .ok body =>
      match parseRegistered body with
      | some rs =>
        ({ st with latestVersionCache := st.latestVersionCache.put subject rs now },
         .ok rs)
      | none => (st, .error .parseError)

/-- C9: deleteSubject and deleteSubjectVersion leave the schema store,
the latest-version cache and the latest-with-metadata cache exactly as
they were, whether they succeed or fail, so an entry cached before the
delete stays observable (until its TTL expires) afterwards. -/
theorem c9_delete_preserves_caches :
    (∀ (st : ClientState) (resp : RestResult) (parse : String → Option (List ℤ)),
      (deleteSubject st resp parse).1 = st) ∧
    (∀ (st : ClientState) (resp : RestResult) (parse : String → Option ℤ),
      (deleteSubjectVersion st resp parse).1 = st) ∧
    (∀ (st : ClientState) (resp : RestResult) (parse : String → Option (List ℤ))
       (subject : String) (now ttl : ℤ) (rs : RegisteredSchema),
      st.latestVersionCache.get subject now ttl = some rs →
      ((deleteSubject st resp parse).1).latestVersionCache.get subject now ttl = some rs) ∧
    (∀ (st : ClientState) (resp : RestResult) (parse : String → Option ℤ)
       (key : String) (now ttl : ℤ) (rs : RegisteredSchema),
      st.latestWithMetadataCache.get key now ttl = some rs →
      ((deleteSubjectVersion st resp parse).1).latestWithMetadataCache.get key now ttl
        = some rs) := by
  exact ⟨fun _ _ _ => rfl, fun _ _ _ => rfl, fun _ _ _ _ _ _ _ h => h, fun _ _ _ _ _ _ _ h => h⟩

/-- Witness for C9: a concrete cached entry survives a delete (both the
successful and the failing kind) and is still returned by the cache. -/
theorem c9_delete_preserves_caches_witness :
    ((deleteSubject
        (ClientState.mk (SchemaStore.mk [] [] [] [])
          (TtlCache.mk [("subj", RegisteredSchema.mk 1 "g" "subj" 1 "sch", 100)])
          (TtlCache.mk []))
        (RestResult.mk 200 "[1]") (fun _ => some [1])).1).latestVersionCache.get
      "subj" 150 300 = some (RegisteredSchema.mk 1 "g" "subj" 1 "sch") := by
  exact c9_delete_preserves_caches.2.2.1
    (ClientState.mk (SchemaStore.mk [] [] [] [])
      (TtlCache.mk [("subj", RegisteredSchema.mk 1 "g" "subj" 1 "sch", 100)])
      (TtlCache.mk []))
    (RestResult.mk 200 "[1]") (fun _ => some [1]) "subj" 150 300
    (RegisteredSchema.mk 1 "g" "subj" 1 "sch") (by decide)
